import Mathlib

/-!
Verification of the numeric signal-processing core of `sol_b.py`
(IMU heart-rate estimation): magnitude reduction, Butterworth bandpass
design and application, windowed spectral peak extraction, and
frequency-to-BPM conversion.  Python floats are modelled as real
numbers, numpy arrays as lists of reals, and fallible library calls
(`ValueError` raised by numpy/scipy) as `Option`.
-/

open scoped BigOperators

/-- Model of `np.hamming N`: numpy returns `[1.0]` for `N = 1` and otherwise
the raised-cosine taper `0.54 - 0.46 * cos (2 * pi * i / (N - 1))` for
`i` in `[0, N-1]`. -/
noncomputable def hamming (N : ℕ) : List ℝ :=
  if N = 1 then [1] else
    (List.range N).map fun (i : ℕ) =>
      0.54 - 0.46 * Real.cos (2 * Real.pi * (i : ℝ) / ((N : ℝ) - 1))

/-- Model of `scipy.fft.fft` on a real input: the discrete Fourier transform
`X k = sum over n of x n * exp (-2 * pi * I * k * n / N)`. -/
noncomputable def dft (x : List ℝ) : List ℂ :=
  (List.range x.length).map fun (k : ℕ) =>
    ∑ n ∈ Finset.range x.length,
      ((x.getD n 0 : ℝ) : ℂ) *
        Complex.exp (-(2 * (Real.pi : ℂ) * Complex.I * (k : ℂ) * (n : ℂ)) /
          (x.length : ℂ))

/-- Model of `scipy.fft.fftfreq N d`: bin `k` holds `k / (d * N)` for
`k ≤ (N - 1) / 2` and `(k - N) / (d * N)` for the remaining (negative
frequency) bins. -/
noncomputable def fftfreq (N : ℕ) (d : ℝ) : List ℝ :=
  (List.range N).map fun (k : ℕ) =>
    (if k ≤ (N - 1) / 2 then (k : ℝ) else (k : ℝ) - (N : ℝ)) / (d * (N : ℝ))

/-- Model of `np.argmax`: index of the first occurrence of the maximum value
(numpy's documented tie-break); raises `ValueError` (here `none`) on an
empty array. -/
noncomputable def argmax : List ℝ → Option ℕ
  | [] => none
  | v :: xs =>
    match argmax xs with
    | none => some 0
    | some j => if v < xs.getD j 0 then some (j + 1) else some 0

/-- Embedding of `stft_analysis(data, fs)` (`sol_b.py` lines 54-65): windows
the signal with `np.hamming(N)`, takes the DFT, keeps the first `N // 2`
magnitude bins, applies `np.argmax` to `magnitudes[1:]` (DC excluded) and
maps the resulting index through `fftfreq`.  `scipy.fft.fft` rejects an
empty input and `np.argmax` rejects an empty slice; both failures are
modelled as `none`. -/
noncomputable def stft_analysis (data : List ℝ) (fs : ℝ) : Option ℝ :=
  let N := data.length
  if N = 0 then none else
  let window := hamming N
  let yf := dft (List.zipWith (· * ·) data window)
  let xf := fftfreq N (1 / fs)
  let positive_frequencies := xf.take (N / 2)
  let magnitudes := (yf.take (N / 2)).map Complex.abs
  match argmax (magnitudes.drop 1) with
  | none => none
  | some i => some (positive_frequencies.getD (i + 1) 0)

/-- Model of numpy 1-D broadcasting of two array lengths: compatible when
equal or when either is `1`; otherwise numpy raises a broadcast
`ValueError`. -/
def bcastLen (n m : ℕ) : Option ℕ :=
  if n = m then some n else if n = 1 then some m else if m = 1 then some n
  else none

/-- Element access of a 1-D array broadcast to a longer shape: a length-1
array repeats its single element. -/
def bget (l : List ℝ) (i : ℕ) : ℝ :=
  if l.length = 1 then l.getD 0 0 else l.getD i 0

/-- Embedding of `calculate_magnitude(x, y, z)` (`sol_b.py` lines 36-39):
`np.sqrt(np.array(x)**2 + np.array(y)**2 + np.array(z)**2)`.  The numpy
elementwise operations broadcast the three 1-D arrays (`bcastLen`,
`bget`); incompatible shapes raise a broadcast `ValueError`, modelled as
`none`. -/
noncomputable def calculate_magnitude (x y z : List ℝ) : Option (List ℝ) :=
  match bcastLen x.length y.length with
  | none => none
  | some nxy =>
    match bcastLen nxy z.length with
    | none => none
    | some n =>
      some ((List.range n).map fun (i : ℕ) =>
        Real.sqrt (bget x i ^ 2 + bget y i ^ 2 + bget z i ^ 2))

/-- Model of `scipy.signal.buttap N`: poles of the analog Butterworth
prototype, `-exp (I * pi * (2 * k - N + 1) / (2 * N))` for `k < N`. -/
noncomputable def buttapPoles (N : ℕ) : List ℂ :=
  (List.range N).map fun (k : ℕ) =>
    -Complex.exp (Complex.I * (Real.pi : ℂ) * (2 * (k : ℂ) - (N : ℂ) + 1) /
      (2 * (N : ℂ)))

/-- Multiply a coefficient list (descending powers, leading coefficient
first) by the monic linear factor with root `r`. -/
noncomputable def polyMulLinear (c : List ℂ) (r : ℂ) : List ℂ :=
  List.zipWith (fun u v => u - r * v) (c ++ [0]) (0 :: c)

/-- Model of `np.poly`: coefficients (descending powers, monic) of the
polynomial with the given roots. -/
noncomputable def polyFromRoots (roots : List ℂ) : List ℂ :=
  roots.foldl polyMulLinear [1]

/-- Principal complex square root, as used by scipy's zpk transforms. -/
noncomputable def csqrt (z : ℂ) : ℂ := z ^ ((1 : ℂ) / 2)

/-- Model of `scipy.signal.lp2bp_zpk`: transform an analog lowpass
prototype in zero-pole-gain form to a bandpass filter with center `wo`
and bandwidth `bw`. -/
noncomputable def lp2bp_zpk (z p : List ℂ) (k : ℂ) (wo bw : ℂ) :
    List ℂ × List ℂ × ℂ :=
  let degree := p.length - z.length
  let z_lp := z.map fun zi => zi * bw / 2
  let p_lp := p.map fun pi => pi * bw / 2
  let z_bp := ((z_lp.map fun zi => zi + csqrt (zi ^ 2 - wo ^ 2)) ++
               (z_lp.map fun zi => zi - csqrt (zi ^ 2 - wo ^ 2))) ++
              List.replicate degree 0
  let p_bp := (p_lp.map fun pi => pi + csqrt (pi ^ 2 - wo ^ 2)) ++
              (p_lp.map fun pi => pi - csqrt (pi ^ 2 - wo ^ 2))
  (z_bp, p_bp, k * bw ^ degree)

/-- Model of `scipy.signal.bilinear_zpk`: map an analog filter in
zero-pole-gain form to a digital one via the bilinear transform at
sample rate `fs`. -/
noncomputable def bilinear_zpk (z p : List ℂ) (k : ℂ) (fs : ℂ) :
    List ℂ × List ℂ × ℂ :=
  let degree := p.length - z.length
  let fs2 := 2 * fs
  let z_d := (z.map fun zi => (fs2 + zi) / (fs2 - zi)) ++
             List.replicate degree (-1)
  let p_d := p.map fun pi => (fs2 + pi) / (fs2 - pi)
  let k_d := k * (((z.map fun zi => fs2 - zi).foldl (· * ·) 1) /
                  ((p.map fun pi => fs2 - pi).foldl (· * ·) 1))
  (z_d, p_d, k_d)

/-- Model of the coefficient computation inside `scipy.signal.butter`
(digital bandpass path of `iirfilter`): pre-warp the normalized band
edges (`warped = 2 * fs * tan (pi * Wn / fs)` with internal `fs = 2`),
build the analog prototype with `buttap`, transform with `lp2bp_zpk`
and `bilinear_zpk`, and expand to transfer-function coefficients with
`np.poly`. -/
noncomputable def butterCoeffs (order : ℕ) (low high : ℝ) :
    List ℝ × List ℝ :=
  let warped1 : ℝ := 4 * Real.tan (Real.pi * low / 2)
  let warped2 : ℝ := 4 * Real.tan (Real.pi * high / 2)
  let bw := warped2 - warped1
  let wo := Real.sqrt (warped1 * warped2)
  let zpk1 := lp2bp_zpk [] (buttapPoles order) 1 (wo : ℂ) (bw : ℂ)
  let zpk2 := bilinear_zpk zpk1.1 zpk1.2.1 zpk1.2.2 2
  ((polyFromRoots zpk2.1).map fun c => (zpk2.2.2 * c).re,
   (polyFromRoots zpk2.2.1).map Complex.re)

/-- Model of `scipy.signal.butter(order, [low, high], btype='band')` for
digital design: `iirfilter` raises `ValueError` unless the normalized
critical frequencies satisfy `0 < low < high < 1`; the order is only
required to be a nonnegative integer (`order = 0` is accepted and yields
the identity filter).  On success the coefficients are those of
`butterCoeffs`. -/
noncomputable def scipy_butter (order : ℕ) (low high : ℝ) :
    Option (List ℝ × List ℝ) :=
  if 0 < low ∧ low < high ∧ high < 1 then some (butterCoeffs order low high)
  else none

/-- Embedding of `butter_bandpass(cutoff, fs, order)` (`sol_b.py` lines
41-47): normalizes both cutoff frequencies by the Nyquist frequency
`nyq = 0.5 * fs` and delegates to `scipy.signal.butter` with
`btype='band'`; the function itself performs no validation. -/
noncomputable def butter_bandpass (cutoff : ℝ × ℝ) (fs : ℝ) (order : ℕ) :
    Option (List ℝ × List ℝ) :=
  let nyq := 0.5 * fs
  let low := cutoff.1 / nyq
  let high := cutoff.2 / nyq
  scipy_butter order low high

/-- Outputs `y 0, ..., y (m-1)` of `scipy.signal.lfilter b a x`, built
iteratively from the causal difference equation
`a 0 * y n = sum of b i * x (n - i) - sum over j ≥ 1 of a j * y (n - j)`
(coefficients beyond the list ends contribute nothing). -/
noncomputable def lfilterAux (b a x : List ℝ) : ℕ → List ℝ
  | 0 => []
  | n + 1 =>
    let ys := lfilterAux b a x n
    ys ++ [(∑ i ∈ Finset.range (n + 1), b.getD i 0 * x.getD (n - i) 0 -
            ∑ j ∈ Finset.range n, a.getD (j + 1) 0 * ys.getD (n - (j + 1)) 0) /
           a.getD 0 0]

/-- Model of `scipy.signal.lfilter b a x`: one causal forward pass of the
linear recursive filter over the whole input. -/
noncomputable def lfilter (b a x : List ℝ) : List ℝ :=
  lfilterAux b a x x.length

/-- Embedding of `apply_filter(data, b, a)` (`sol_b.py` lines 49-52):
`scipy.signal.lfilter(b, a, data)`. -/
noncomputable def apply_filter (data b a : List ℝ) : List ℝ :=
  lfilter b a data

/-- Embedding of `calculate_heart_rate(dominant_frequency)` (`sol_b.py`
lines 67-70): `heart_rate = dominant_frequency * 60`. -/
noncomputable def calculate_heart_rate (dominant_frequency : ℝ) : ℝ :=
  dominant_frequency * 60

/-- Embedding of the `__main__` pipeline of `sol_b.py` (lines 76-92) after
the excluded file-loading step: magnitude, Butterworth bandpass design
with `cutoff = [0.5, 3]`, `fs = 100`, `order = 5`, causal filtering,
spectral analysis, and the reported pair
`(dominant_frequency, heart_rate / 2)` where
`heart_rate = calculate_heart_rate dominant_frequency`; the halving
happens only in the final report expression. -/
noncomputable def main_pipeline (x y z : List ℝ) : Option (ℝ × ℝ) :=
  match calculate_magnitude x y z with
  | none => none
  | some magnitude =>
    match butter_bandpass (0.5, 3) 100 5 with
    | none => none
    | some ba =>
      let filtered := apply_filter magnitude ba.1 ba.2
      match stft_analysis filtered 100 with
      | none => none
      | some dominant => some (dominant, calculate_heart_rate dominant / 2)

/-- Specification-side Hamming window, written from the spec's words
(section 4.3 step 1): the raised-cosine taper
`0.54 - 0.46 * cos (2 * pi * i / (N - 1))` for index `i` in `[0, N-1]`. -/
noncomputable def specWindow (N i : ℕ) : ℝ :=
  0.54 - 0.46 * Real.cos (2 * Real.pi * (i : ℝ) / ((N : ℝ) - 1))

/-- Specification-side discrete Fourier transform of the windowed signal
(spec section 4.3 step 2). -/
noncomputable def specDFT (data : List ℝ) (k : ℕ) : ℂ :=
  ∑ n ∈ Finset.range data.length,
    ((data.getD n 0 * specWindow data.length n : ℝ) : ℂ) *
      Complex.exp (-(2 * (Real.pi : ℂ) * Complex.I * (k : ℂ) * (n : ℂ)) /
        (data.length : ℂ))

/-- Specification-side magnitude of one frequency bin (spec section 4.3
step 4). -/
noncomputable def specMag (data : List ℝ) (k : ℕ) : ℝ :=
  Complex.abs (specDFT data k)

/-- Specification-side search range for the dominant bin: indices
`[1, N / 2 - 1]`, the first `N / 2` bins with index 0 (DC) always
excluded (spec section 4.3 steps 3 and 5). -/
def specSearch (data : List ℝ) : Finset ℕ :=
  Finset.Icc 1 (data.length / 2 - 1)

open Classical in
/-- Specification-side set of indices of maximum magnitude within the
search range (spec section 4.3 step 5). -/
noncomputable def specMaxima (data : List ℝ) : Finset ℕ :=
  (specSearch data).filter fun k => ∀ j ∈ specSearch data,
    specMag data j ≤ specMag data k

/-- Specification-side definition of the Spectral Peak Extractor, written
from the words of spec section 4.3 for the refinement comparison with
`stft_analysis`: Hamming window, discrete Fourier transform, magnitudes
of the first `N / 2` bins, the lowest index attaining the maximum
magnitude over `[1, N / 2 - 1]` (DC always excluded, lowest-index
tie-break), and the frequency `k * fs / N` of that bin; no result when
the search range is empty. -/
noncomputable def specPeak (data : List ℝ) (fs : ℝ) : Option ℝ :=
  if hM : (specMaxima data).Nonempty then
    some ((((specMaxima data).min' hM : ℕ) : ℝ) * fs / (data.length : ℝ))
  else none

lemma getD_replicate_zero (n i : ℕ) : (List.replicate n (0 : ℝ)).getD i 0 = 0 := by
  rcases lt_or_le i n with h | h
  · rw [List.getD_eq_getElem _ _ (by simpa using h)]
    exact List.getElem_replicate _ _
  · exact List.getD_eq_default _ _ (by simpa using h)

lemma hamming_length (N : ℕ) : (hamming N).length = N := by
  rw [hamming]
  split
  · simp only [List.length_cons, List.length_nil]; omega
  · rw [List.length_map, List.length_range]

lemma dft_length (x : List ℝ) : (dft x).length = x.length := by
  rw [dft, List.length_map, List.length_range]

lemma fftfreq_length (N : ℕ) (d : ℝ) : (fftfreq N d).length = N := by
  rw [fftfreq, List.length_map, List.length_range]

lemma argmax_nil : argmax [] = none := rfl

lemma argmax_cons (v : ℝ) (xs : List ℝ) :
    argmax (v :: xs) =
      match argmax xs with
      | none => some 0
      | some j => if v < xs.getD j 0 then some (j + 1) else some 0 := rfl

lemma argmax_eq_none_iff (l : List ℝ) : argmax l = none ↔ l = [] := by
  cases l with
  | nil => simp [argmax_nil]
  | cons v xs =>
    rw [argmax_cons]
    constructor
    · intro h
      cases hx : argmax xs with
      | none => rw [hx] at h; dsimp only at h; exact absurd h (by simp)
      | some j =>
        rw [hx] at h; dsimp only at h
        split at h <;> simp at h
    · intro h; exact absurd h (List.cons_ne_nil v xs)

lemma argmax_first_max (l : List ℝ) (i : ℕ) (h : argmax l = some i) :
    i < l.length ∧ (∀ j, j < l.length → l.getD j 0 ≤ l.getD i 0) ∧
      ∀ j, j < i → l.getD j 0 < l.getD i 0 := by
  induction l generalizing i with
  | nil => rw [argmax_nil] at h; exact absurd h (by simp)
  | cons v xs ih =>
    rw [argmax_cons] at h
    cases hx : argmax xs with
    | none =>
      rw [hx] at h; dsimp only at h
      have hnil : xs = [] := (argmax_eq_none_iff xs).mp hx
      have hi : i = 0 := by simpa using h.symm
      subst hnil hi
      refine ⟨by simp, ?_, by omega⟩
      intro j hj
      simp only [List.length_cons, List.length_nil] at hj
      have hj0 : j = 0 := by omega
      subst hj0
      simp
    | some j =>
      rw [hx] at h; dsimp only at h
      obtain ⟨hjlt, hjmax, hjfirst⟩ := ih j hx
      split at h
      case isTrue hv =>
        have hi : i = j + 1 := by simpa using h.symm
        subst hi
        refine ⟨by simpa using hjlt, ?_, ?_⟩
        · intro m hm
          cases m with
          | zero =>
            simpa [List.getD_cons_zero, List.getD_cons_succ] using le_of_lt hv
          | succ m =>
            simp only [List.getD_cons_succ]
            exact hjmax m (by simpa using hm)
        · intro m hm
          cases m with
          | zero => simpa [List.getD_cons_zero, List.getD_cons_succ] using hv
          | succ m =>
            simp only [List.getD_cons_succ]
            exact hjfirst m (by omega)
      case isFalse hv =>
        have hi : i = 0 := by simpa using h.symm
        subst hi
        push_neg at hv
        refine ⟨by simp, ?_, by omega⟩
        intro m hm
        cases m with
        | zero => simp
        | succ m =>
          simp only [List.getD_cons_succ, List.getD_cons_zero]
          exact le_trans (hjmax m (by simpa using hm)) hv

lemma argmax_isSome_of_ne_nil (l : List ℝ) (h : l ≠ []) :
    ∃ i, argmax l = some i := by
  cases hx : argmax l with
  | none => exact absurd ((argmax_eq_none_iff l).mp hx) h
  | some i => exact ⟨i, rfl⟩

lemma getD_map_range {β : Type} (f : ℕ → β) (d : β) (N n : ℕ) (hn : n < N) :
    ((List.range N).map f).getD n d = f n := by
  rw [List.getD_eq_getElem _ _
    (by rw [List.length_map, List.length_range]; exact hn)]
  rw [List.getElem_map]
  congr 1
  exact List.getElem_range _ _

lemma getD_take {β : Type} (l : List β) (d : β) (m k : ℕ) (hk : k < m)
    (hl : k < l.length) : (l.take m).getD k d = l.getD k d := by
  rw [List.getD_eq_getElem _ _ (by rw [List.length_take]; exact lt_min hk hl),
    List.getElem_take, List.getD_eq_getElem _ _ hl]

lemma getD_drop {β : Type} (l : List β) (d : β) (n k : ℕ)
    (h : n + k < l.length) : (l.drop n).getD k d = l.getD (n + k) d := by
  rw [List.getD_eq_getElem _ _ (by rw [List.length_drop]; omega),
    List.getElem_drop, List.getD_eq_getElem _ _ h]

lemma getD_zipWith_mul (l1 l2 : List ℝ) (n : ℕ) (h1 : n < l1.length)
    (h2 : n < l2.length) :
    (List.zipWith (· * ·) l1 l2).getD n 0 = l1.getD n 0 * l2.getD n 0 := by
  rw [List.getD_eq_getElem _ _
    (by rw [List.length_zipWith]; exact lt_min h1 h2), List.getElem_zipWith,
    List.getD_eq_getElem _ _ h1, List.getD_eq_getElem _ _ h2]

lemma getD_map_abs (l : List ℂ) (k : ℕ) (hk : k < l.length) :
    (l.map Complex.abs).getD k 0 = Complex.abs (l.getD k 0) := by
  rw [List.getD_eq_getElem _ _ (by rwa [List.length_map]), List.getElem_map,
    List.getD_eq_getElem _ _ hk]

lemma hamming_getD (N n : ℕ) (hN : N ≠ 1) (hn : n < N) :
    (hamming N).getD n 0 =
      0.54 - 0.46 * Real.cos (2 * Real.pi * (n : ℝ) / ((N : ℝ) - 1)) := by
  rw [hamming, if_neg hN]
  exact getD_map_range _ _ _ _ hn

lemma windowed_length (data : List ℝ) :
    (List.zipWith (· * ·) data (hamming data.length)).length = data.length := by
  rw [List.length_zipWith, hamming_length, min_self]

lemma windowed_getD (data : List ℝ) (n : ℕ) (hN : data.length ≠ 1)
    (hn : n < data.length) :
    (List.zipWith (· * ·) data (hamming data.length)).getD n 0 =
      data.getD n 0 *
        (0.54 - 0.46 * Real.cos (2 * Real.pi * (n : ℝ) /
          ((data.length : ℝ) - 1))) := by
  rw [getD_zipWith_mul data _ n hn (by rw [hamming_length]; exact hn)]
  rw [hamming_getD _ _ hN hn]

lemma dft_getD (x : List ℝ) (k : ℕ) (hk : k < x.length) :
    (dft x).getD k 0 =
      ∑ n ∈ Finset.range x.length,
        ((x.getD n 0 : ℝ) : ℂ) *
          Complex.exp (-(2 * (Real.pi : ℂ) * Complex.I * (k : ℂ) * (n : ℂ)) /
            (x.length : ℂ)) := by
  rw [dft]
  exact getD_map_range _ _ _ _ hk

lemma dft_windowed_getD (data : List ℝ) (k : ℕ) (hN : data.length ≠ 1)
    (hk : k < data.length) :
    (dft (List.zipWith (· * ·) data (hamming data.length))).getD k 0 =
      ∑ n ∈ Finset.range data.length,
        ((data.getD n 0 *
            (0.54 - 0.46 * Real.cos (2 * Real.pi * (n : ℝ) /
              ((data.length : ℝ) - 1))) : ℝ) : ℂ) *
          Complex.exp (-(2 * (Real.pi : ℂ) * Complex.I * (k : ℂ) * (n : ℂ)) /
            (data.length : ℂ)) := by
  rw [dft_getD _ k (by rw [windowed_length]; exact hk)]
  rw [windowed_length]
  refine Finset.sum_congr rfl ?_
  intro n hn
  rw [windowed_getD data n hN (List.mem_range.mp hn)]

lemma fftfreq_take_getD (N : ℕ) (fs : ℝ) (k : ℕ) (hk : k < N / 2) :
    ((fftfreq N (1 / fs)).take (N / 2)).getD k 0 = (k : ℝ) * fs / (N : ℝ) := by
  have hkN : k < N := lt_of_lt_of_le hk (Nat.div_le_self N 2)
  rw [fftfreq]
  rw [getD_take _ _ _ _ hk (by rw [List.length_map, List.length_range]; exact hkN)]
  rw [getD_map_range _ _ _ _ hkN]
  rw [if_pos (by omega : k ≤ (N - 1) / 2)]
  rcases eq_or_ne fs 0 with hfs | hfs
  · subst hfs; simp
  · have hN0 : (N : ℝ) ≠ 0 := Nat.cast_ne_zero.mpr (by omega)
    field_simp

lemma specSearch_nonempty_iff (data : List ℝ) :
    (specSearch data).Nonempty ↔ 4 ≤ data.length := by
  rw [specSearch, Finset.nonempty_Icc]
  omega

lemma specMaxima_nonempty_iff (data : List ℝ) :
    (specMaxima data).Nonempty ↔ 4 ≤ data.length := by
  classical
  rw [← specSearch_nonempty_iff]
  constructor
  · rintro ⟨k, hk⟩
    rw [specMaxima] at hk
    exact ⟨k, (Finset.mem_filter.mp hk).1⟩
  · intro hS
    obtain ⟨b, hb, hmax⟩ := Finset.exists_max_image (specSearch data)
      (specMag data) hS
    refine ⟨b, ?_⟩
    rw [specMaxima]
    exact Finset.mem_filter.mpr ⟨hb, hmax⟩

lemma dft_windowed_eq_specDFT (data : List ℝ) (hN1 : data.length ≠ 1)
    (k : ℕ) (hk : k < data.length) :
    (dft (List.zipWith (· * ·) data (hamming data.length))).getD k 0 =
      specDFT data k := by
  rw [specDFT]
  simp only [specWindow]
  exact dft_windowed_getD data k hN1 hk

lemma stft_mags_length (data : List ℝ) :
    ((List.map Complex.abs
        ((dft (List.zipWith (· * ·) data (hamming data.length))).take
          (data.length / 2))).drop 1).length = data.length / 2 - 1 := by
  rw [List.length_drop, List.length_map, List.length_take, dft_length,
    windowed_length, min_eq_left (Nat.div_le_self _ 2)]

lemma stft_mags_getD (data : List ℝ) (hN1 : data.length ≠ 1) (j : ℕ)
    (hj : 1 + j < data.length / 2) :
    ((List.map Complex.abs
        ((dft (List.zipWith (· * ·) data (hamming data.length))).take
          (data.length / 2))).drop 1).getD j 0 = specMag data (1 + j) := by
  have hjN : 1 + j < data.length := lt_of_lt_of_le hj (Nat.div_le_self _ 2)
  rw [getD_drop _ _ 1 j (by
    rw [List.length_map, List.length_take, dft_length, windowed_length,
      min_eq_left (Nat.div_le_self _ 2)]
    exact hj)]
  rw [getD_map_abs _ _ (by
    rw [List.length_take, dft_length, windowed_length,
      min_eq_left (Nat.div_le_self _ 2)]
    exact hj)]
  rw [getD_take _ _ _ _ hj (by rw [dft_length, windowed_length]; exact hjN)]
  rw [dft_windowed_eq_specDFT data hN1 _ hjN, specMag]

lemma stft_eq_specPeak_aux (data : List ℝ) (fs : ℝ) :
    stft_analysis data fs = specPeak data fs := by
  classical
  by_cases h4 : 4 ≤ data.length
  · have h0 : ¬ data.length = 0 := by omega
    have hN1 : data.length ≠ 1 := by omega
    have hM : (specMaxima data).Nonempty :=
      (specMaxima_nonempty_iff data).mpr h4
    simp only [stft_analysis, if_neg h0]
    set L := (List.map Complex.abs
      ((dft (List.zipWith (· * ·) data (hamming data.length))).take
        (data.length / 2))).drop 1 with hLdef
    have hLlen : L.length = data.length / 2 - 1 := stft_mags_length data
    obtain ⟨i, hi⟩ := argmax_isSome_of_ne_nil L (by
      intro h
      rw [h] at hLlen
      simp only [List.length_nil] at hLlen
      omega)
    rw [hi]
    obtain ⟨hilt, himax, hifirst⟩ := argmax_first_max L i hi
    rw [hLlen] at hilt
    have hgetD : ∀ j, j < data.length / 2 - 1 →
        L.getD j 0 = specMag data (1 + j) := by
      intro j hj
      exact stft_mags_getD data hN1 j (by omega)
    have hmem : i + 1 ∈ specMaxima data := by
      rw [specMaxima]
      refine Finset.mem_filter.mpr ⟨?_, ?_⟩
      · rw [specSearch, Finset.mem_Icc]
        omega
      · intro j hj
        rw [specSearch, Finset.mem_Icc] at hj
        have hlt : j - 1 < L.length := by omega
        have := himax (j - 1) hlt
        rw [hgetD (j - 1) (by omega), hgetD i (by omega)] at this
        have e1 : 1 + (j - 1) = j := by omega
        have e2 : 1 + i = i + 1 := by omega
        rwa [e1, e2] at this
    have hmin : (specMaxima data).min' hM = i + 1 := by
      refine le_antisymm (Finset.min'_le _ _ hmem) ?_
      refine Finset.le_min' _ _ _ ?_
      intro m hm
      by_contra hcon
      push_neg at hcon
      rw [specMaxima] at hm
      obtain ⟨hmS, hmmax⟩ := Finset.mem_filter.mp hm
      rw [specSearch, Finset.mem_Icc] at hmS
      have hm1 : m - 1 < i := by omega
      have hstrict := hifirst (m - 1) hm1
      rw [hgetD (m - 1) (by omega), hgetD i (by omega)] at hstrict
      have e1 : 1 + (m - 1) = m := by omega
      have e2 : 1 + i = i + 1 := by omega
      rw [e1, e2] at hstrict
      have hle := hmmax (i + 1) (by rw [specSearch, Finset.mem_Icc]; omega)
      exact absurd (lt_of_le_of_lt hle hstrict) (lt_irrefl _)
    rw [specPeak, dif_pos hM, hmin]
    show some ((List.take (data.length / 2)
      (fftfreq data.length (1 / fs))).getD (i + 1) 0) = _
    rw [fftfreq_take_getD data.length fs (i + 1) (by omega)]
  · have hMne : ¬ (specMaxima data).Nonempty := by
      rw [specMaxima_nonempty_iff]
      exact h4
    rw [specPeak, dif_neg hMne]
    by_cases h0 : data.length = 0
    · simp only [stft_analysis, if_pos h0]
    · simp only [stft_analysis, if_neg h0]
      have hL : (List.map Complex.abs
          ((dft (List.zipWith (· * ·) data (hamming data.length))).take
            (data.length / 2))).drop 1 = [] := by
        refine List.eq_nil_of_length_eq_zero ?_
        rw [stft_mags_length]
        omega
      rw [hL, argmax_nil]

lemma specPeak_isSome_iff (data : List ℝ) (fs : ℝ) :
    (specPeak data fs).isSome = true ↔ 4 ≤ data.length := by
  rw [specPeak]
  by_cases hM : (specMaxima data).Nonempty
  · rw [dif_pos hM]
    simpa using (specMaxima_nonempty_iff data).mp hM
  · rw [dif_neg hM]
    rw [specMaxima_nonempty_iff] at hM
    simpa using hM

lemma stft_isSome_iff_aux (data : List ℝ) (fs : ℝ) :
    (stft_analysis data fs).isSome = true ↔ 4 ≤ data.length := by
  rw [stft_eq_specPeak_aux]
  exact specPeak_isSome_iff data fs

lemma stft_some_char (data : List ℝ) (fs f : ℝ)
    (h : stft_analysis data fs = some f) :
    4 ≤ data.length ∧ ∃ k, 1 ≤ k ∧ k ≤ data.length / 2 - 1 ∧
      f = (k : ℝ) * fs / (data.length : ℝ) ∧
      (∀ j, 1 ≤ j → j ≤ data.length / 2 - 1 →
        Complex.abs ((dft (List.zipWith (· * ·) data
          (hamming data.length))).getD j 0) ≤
        Complex.abs ((dft (List.zipWith (· * ·) data
          (hamming data.length))).getD k 0)) ∧
      ∀ j, 1 ≤ j → j < k →
        Complex.abs ((dft (List.zipWith (· * ·) data
          (hamming data.length))).getD j 0) <
        Complex.abs ((dft (List.zipWith (· * ·) data
          (hamming data.length))).getD k 0) := by
  classical
  have h4 : 4 ≤ data.length := by
    rw [← stft_isSome_iff_aux data fs, h]
    rfl
  have hN1 : data.length ≠ 1 := by omega
  rw [stft_eq_specPeak_aux] at h
  have hM : (specMaxima data).Nonempty := (specMaxima_nonempty_iff data).mpr h4
  rw [specPeak, dif_pos hM] at h
  have hf : f = (((specMaxima data).min' hM : ℕ) : ℝ) * fs / data.length :=
    (Option.some.inj h).symm
  set K := (specMaxima data).min' hM with hK
  have hKmem : K ∈ specMaxima data := Finset.min'_mem _ hM
  rw [specMaxima] at hKmem
  obtain ⟨hKS, hKmax⟩ := Finset.mem_filter.mp hKmem
  rw [specSearch, Finset.mem_Icc] at hKS
  have hbridge : ∀ j, j ≤ data.length / 2 - 1 →
      Complex.abs ((dft (List.zipWith (· * ·) data
        (hamming data.length))).getD j 0) = specMag data j := by
    intro j hj
    have hjN : j < data.length := by omega
    rw [dft_windowed_eq_specDFT data hN1 j hjN, specMag]
  refine ⟨h4, K, hKS.1, hKS.2, hf, ?_, ?_⟩
  · intro j hj1 hj2
    rw [hbridge j hj2, hbridge K hKS.2]
    exact hKmax j (by rw [specSearch, Finset.mem_Icc]; exact ⟨hj1, hj2⟩)
  · intro j hj1 hjK
    have hjS : j ∈ specSearch data := by
      rw [specSearch, Finset.mem_Icc]
      omega
    have hj2 : j ≤ data.length / 2 - 1 := (Finset.mem_Icc.mp hjS).2
    rw [hbridge j hj2, hbridge K hKS.2]
    have hle : specMag data j ≤ specMag data K := hKmax j hjS
    rcases lt_or_eq_of_le hle with hlt | heq
    · exact hlt
    · exfalso
      have hjmem : j ∈ specMaxima data := by
        rw [specMaxima]
        refine Finset.mem_filter.mpr ⟨hjS, ?_⟩
        intro m hm
        rw [heq]
        exact hKmax m hm
      have := Finset.min'_le _ _ hjmem
      omega

lemma stft_replicate_zero (N : ℕ) (fs : ℝ) (h4 : 4 ≤ N) :
    stft_analysis (List.replicate N 0) fs = some (fs / (N : ℝ)) := by
  classical
  have hlen : (List.replicate N (0 : ℝ)).length = N := List.length_replicate N 0
  rw [stft_eq_specPeak_aux]
  have hM : (specMaxima (List.replicate N 0)).Nonempty := by
    rw [specMaxima_nonempty_iff, hlen]
    exact h4
  have hmin : (specMaxima (List.replicate N 0)).min' hM = 1 := by
    have hmag : ∀ k, specMag (List.replicate N (0 : ℝ)) k = 0 := by
      intro k
      rw [specMag, specDFT]
      rw [Finset.sum_eq_zero]
      · simp
      · intro n _
        rw [getD_replicate_zero]
        simp
    refine le_antisymm ?_ ?_
    · refine Finset.min'_le _ _ ?_
      rw [specMaxima]
      refine Finset.mem_filter.mpr ⟨?_, ?_⟩
      · rw [specSearch, Finset.mem_Icc, hlen]
        omega
      · intro j _
        rw [hmag, hmag]
    · refine Finset.le_min' _ _ _ ?_
      intro y hy
      rw [specMaxima] at hy
      have := (Finset.mem_Icc.mp (by
        have := Finset.mem_filter.mp hy
        rw [specSearch] at this
        exact this.1)).1
      omega
  rw [specPeak, dif_pos hM, hmin, hlen]
  norm_num

lemma lfilterAux_length (b a x : List ℝ) (m : ℕ) :
    (lfilterAux b a x m).length = m := by
  induction m with
  | zero => rfl
  | succ n ih =>
    simp only [lfilterAux, List.length_append, List.length_cons,
      List.length_nil, ih]

lemma lfilter_length (b a x : List ℝ) : (lfilter b a x).length = x.length :=
  lfilterAux_length b a x x.length

lemma lfilterAux_congr (b a x x' : List ℝ) (m : ℕ)
    (h : ∀ i, i < m → x.getD i 0 = x'.getD i 0) :
    lfilterAux b a x m = lfilterAux b a x' m := by
  induction m with
  | zero => rfl
  | succ n ih =>
    have ihh : lfilterAux b a x n = lfilterAux b a x' n :=
      ih fun i hi => h i (by omega)
    simp only [lfilterAux]
    rw [ihh]
    have hsum : (∑ i ∈ Finset.range (n + 1), b.getD i 0 * x.getD (n - i) 0) =
        ∑ i ∈ Finset.range (n + 1), b.getD i 0 * x'.getD (n - i) 0 :=
      Finset.sum_congr rfl fun i _ => by rw [h (n - i) (by omega)]
    rw [hsum]

lemma lfilterAux_getD_stable (b a x : List ℝ) (m n : ℕ) (h : n < m) :
    (lfilterAux b a x m).getD n 0 = (lfilterAux b a x (n + 1)).getD n 0 := by
  induction m with
  | zero => omega
  | succ p ih =>
    rcases Nat.lt_succ_iff_lt_or_eq.mp h with h' | h'
    · simp only [lfilterAux]
      rw [List.getD_append _ _ _ _ (by rw [lfilterAux_length]; exact h')]
      exact ih h'
    · subst h'
      rfl

lemma lfilter_getD_congr (b a x x' : List ℝ) (n : ℕ)
    (hlen : x'.length = x.length) (hn : n < x.length)
    (h : ∀ i, i ≤ n → x.getD i 0 = x'.getD i 0) :
    (lfilter b a x).getD n 0 = (lfilter b a x').getD n 0 := by
  rw [lfilter, lfilter, hlen]
  rw [lfilterAux_getD_stable b a x _ n hn,
    lfilterAux_getD_stable b a x' _ n hn]
  rw [lfilterAux_congr b a x x' (n + 1) fun i hi => h i (by omega)]

lemma lfilterAux_replicate_zero (b a : List ℝ) (N m : ℕ) :
    lfilterAux b a (List.replicate N 0) m = List.replicate m 0 := by
  induction m with
  | zero => rfl
  | succ n ih =>
    simp only [lfilterAux, ih]
    rw [Finset.sum_eq_zero (fun i _ => by
      rw [getD_replicate_zero]
      ring)]
    rw [Finset.sum_eq_zero (fun j _ => by
      rw [getD_replicate_zero]
      ring)]
    rw [sub_zero, zero_div]
    exact (List.replicate_succ' n (0 : ℝ)).symm

lemma lfilter_replicate_zero (b a : List ℝ) (N : ℕ) :
    lfilter b a (List.replicate N 0) = List.replicate N 0 := by
  rw [lfilter, List.length_replicate]
  exact lfilterAux_replicate_zero b a N N

lemma bget_eq_getD (l : List ℝ) (i : ℕ) (h : i < l.length) :
    bget l i = l.getD i 0 := by
  rw [bget]
  split
  case isTrue h1 =>
    have hi : i = 0 := by omega
    rw [hi]
  case isFalse h1 => rfl

lemma calculate_magnitude_eq_some (x y z : List ℝ)
    (hxy : x.length = y.length) (hyz : y.length = z.length) :
    calculate_magnitude x y z =
      some ((List.range x.length).map fun (i : ℕ) =>
        Real.sqrt (bget x i ^ 2 + bget y i ^ 2 + bget z i ^ 2)) := by
  have h1 : bcastLen x.length y.length = some x.length := by
    rw [bcastLen, if_pos hxy]
  have h2 : bcastLen x.length z.length = some x.length := by
    rw [bcastLen, if_pos (hxy.trans hyz)]
  rw [calculate_magnitude, h1]
  dsimp only
  rw [h2]

lemma bcastLen_isSome_vals (n m r : ℕ) (h : bcastLen n m = some r) :
    (n = m ∧ r = n) ∨ (n ≠ m ∧ n = 1 ∧ r = m) ∨
      (n ≠ m ∧ n ≠ 1 ∧ m = 1 ∧ r = n) := by
  rw [bcastLen] at h
  split_ifs at h with h1 h2 h3
  · exact Or.inl ⟨h1, (Option.some.inj h).symm⟩
  · exact Or.inr (Or.inl ⟨h1, h2, (Option.some.inj h).symm⟩)
  · exact Or.inr (Or.inr ⟨h1, h2, h3, (Option.some.inj h).symm⟩)

lemma calculate_magnitude_isSome_iff (x y z : List ℝ) :
    (calculate_magnitude x y z).isSome = true ↔
      ∃ L, (x.length = L ∨ x.length = 1) ∧ (y.length = L ∨ y.length = 1) ∧
        (z.length = L ∨ z.length = 1) := by
  constructor
  · intro h
    cases hab : bcastLen x.length y.length with
    | none => rw [calculate_magnitude, hab] at h; simp at h
    | some nxy =>
      cases habc : bcastLen nxy z.length with
      | none =>
        rw [calculate_magnitude, hab] at h
        dsimp only at h
        rw [habc] at h
        simp at h
      | some n =>
        refine ⟨n, ?_, ?_, ?_⟩ <;>
          (rcases bcastLen_isSome_vals _ _ _ hab with
            ⟨h1, h2⟩ | ⟨h1, h2, h3⟩ | ⟨h1, h2, h3, h4⟩ <;>
          rcases bcastLen_isSome_vals _ _ _ habc with
            ⟨g1, g2⟩ | ⟨g1, g2, g3⟩ | ⟨g1, g2, g3, g4⟩ <;> omega)
  · rintro ⟨L, hx, hy, hz⟩
    obtain ⟨nxy, hab⟩ : ∃ nxy, bcastLen x.length y.length = some nxy := by
      rw [bcastLen]
      split_ifs with h1 h2 h3
      · exact ⟨_, rfl⟩
      · exact ⟨_, rfl⟩
      · exact ⟨_, rfl⟩
      · omega
    have hnxy : nxy = L ∨ nxy = 1 := by
      rcases bcastLen_isSome_vals _ _ _ hab with
        ⟨h1, h2⟩ | ⟨h1, h2, h3⟩ | ⟨h1, h2, h3, h4⟩ <;> omega
    obtain ⟨n, habc⟩ : ∃ n, bcastLen nxy z.length = some n := by
      rw [bcastLen]
      split_ifs with h1 h2 h3
      · exact ⟨_, rfl⟩
      · exact ⟨_, rfl⟩
      · exact ⟨_, rfl⟩
      · omega
    rw [calculate_magnitude, hab]
    dsimp only
    rw [habc]
    rfl

lemma butter_bandpass_eq_scipy (cutoff : ℝ × ℝ) (fs : ℝ) (order : ℕ) :
    butter_bandpass cutoff fs order =
      scipy_butter order (cutoff.1 / (0.5 * fs)) (cutoff.2 / (0.5 * fs)) := rfl

lemma butter_bandpass_default_isSome :
    ∃ ba, butter_bandpass ((0.5 : ℝ), 3) 100 5 = some ba := by
  rw [butter_bandpass_eq_scipy, scipy_butter, if_pos (by norm_num)]
  exact ⟨_, rfl⟩

lemma bget_replicate_zero (n i : ℕ) : bget (List.replicate n 0) i = 0 := by
  rw [bget]
  split <;> rw [getD_replicate_zero]

lemma calculate_magnitude_replicate_zero (n : ℕ) :
    calculate_magnitude (List.replicate n 0) (List.replicate n 0)
      (List.replicate n 0) = some (List.replicate n 0) := by
  rw [calculate_magnitude_eq_some _ _ _ (by simp) (by simp)]
  congr 1
  have hone : ∀ i : ℕ,
      Real.sqrt (bget (List.replicate n (0 : ℝ)) i ^ 2 +
        bget (List.replicate n 0) i ^ 2 +
        bget (List.replicate n 0) i ^ 2) = 0 := by
    intro i
    rw [bget_replicate_zero]
    norm_num
  calc (List.range (List.replicate n (0 : ℝ)).length).map
        (fun (i : ℕ) => Real.sqrt (bget (List.replicate n 0) i ^ 2 +
          bget (List.replicate n 0) i ^ 2 + bget (List.replicate n 0) i ^ 2))
      = (List.range (List.replicate n (0 : ℝ)).length).map fun _ => (0 : ℝ) :=
        List.map_congr_left fun i _ => hone i
    _ = List.replicate n 0 := by
        rw [List.map_const', List.length_range, List.length_replicate]

lemma main_pipeline_replicate_zero :
    main_pipeline (List.replicate 4 0) (List.replicate 4 0)
      (List.replicate 4 0) = some (25, 750) := by
  obtain ⟨ba, hba⟩ := butter_bandpass_default_isSome
  have hf : apply_filter (List.replicate 4 0) ba.1 ba.2 =
      List.replicate 4 0 := by
    rw [apply_filter]
    exact lfilter_replicate_zero _ _ 4
  have hs : stft_analysis (List.replicate 4 (0 : ℝ)) 100 = some 25 := by
    rw [stft_replicate_zero 4 100 (by norm_num)]
    norm_num
  rw [main_pipeline, calculate_magnitude_replicate_zero 4]
  dsimp only
  rw [hba]
  dsimp only
  rw [hf, hs]
  dsimp only
  rw [calculate_heart_rate]
  norm_num

/-- Counterexample to claim C1 as stated: the length-3 signal `[1, 1, 1]`
satisfies `N ≥ 2`, yet the Spectral Peak Extractor returns nothing (the
code raises, since the non-DC slice `magnitudes[1:]` of the first
`N // 2 = 1` bins is empty) instead of returning a mapped bin
frequency. -/
theorem stft_analysis_three_sample_failure :
    stft_analysis [(1 : ℝ), 1, 1] 100 = none := rfl

/-- Claim C1 (amended: the extractor produces a value exactly for
`N ≥ 4`, not for every `N ≥ 2`): for every real-valued signal and
sample rate, `stft_analysis` agrees with the spec-side algorithm
`specPeak` — elementwise Hamming window, discrete Fourier transform,
magnitudes of the first `N / 2` bins, index of the maximum magnitude
over `[1, N / 2 - 1]` with index 0 always excluded, mapped to the bin
frequency `k * fs / N` — including the failure domain. -/
theorem stft_analysis_refines_spec_peak (data : List ℝ) (fs : ℝ) :
    stft_analysis data fs = specPeak data fs :=
  stft_eq_specPeak_aux data fs

/-- Claim C2: for equal-length signals of length `N ≥ 1` the Magnitude
Reducer returns a signal of the same length with
`m[i] = sqrt (x[i]^2 + y[i]^2 + z[i]^2)` elementwise, and every element
is non-negative. -/
theorem calculate_magnitude_correct (x y z : List ℝ)
    (hxy : x.length = y.length) (hyz : y.length = z.length)
    (hN : 1 ≤ x.length) :
    ∃ m, calculate_magnitude x y z = some m ∧ m.length = x.length ∧
      ∀ i, i < x.length →
        m.getD i 0 =
          Real.sqrt (x.getD i 0 ^ 2 + y.getD i 0 ^ 2 + z.getD i 0 ^ 2) ∧
        0 ≤ m.getD i 0 := by
  refine ⟨_, calculate_magnitude_eq_some x y z hxy hyz, ?_, ?_⟩
  · rw [List.length_map, List.length_range]
  · intro i hi
    rw [getD_map_range _ _ _ _ hi]
    constructor
    · rw [bget_eq_getD x i hi, bget_eq_getD y i (by omega),
        bget_eq_getD z i (by omega)]
    · exact Real.sqrt_nonneg _

/-- Witness for C2 at the concrete input `x = y = z = [3]`. -/
theorem calculate_magnitude_correct_witness :
    ∃ m, calculate_magnitude [(3 : ℝ)] [3] [3] = some m ∧
      m.length = [(3 : ℝ)].length ∧
      ∀ i, i < [(3 : ℝ)].length →
        m.getD i 0 = Real.sqrt ([(3 : ℝ)].getD i 0 ^ 2 +
          [(3 : ℝ)].getD i 0 ^ 2 + [(3 : ℝ)].getD i 0 ^ 2) ∧
        0 ≤ m.getD i 0 :=
  calculate_magnitude_correct [(3 : ℝ)] [3] [3] rfl rfl (by simp)

/-- Counterexample to claim C3 as stated: the length-2 signal `[0, 0]`
has `N ≥ 2` samples, yet the extractor fails (the non-DC search slice is
empty), so success is not guaranteed for every `N ≥ 2`. -/
theorem stft_analysis_two_sample_failure :
    stft_analysis [(0 : ℝ), 0] 100 = none := rfl

/-- Claim C3 (amended: the Spectral Peak Extractor succeeds exactly when
the signal has at least 4 samples, not 2; for `N < 4` the non-DC slice
of the first `N // 2` bins is empty and the code raises the library's
error — the repository defines no `InsufficientSamplesError`). -/
theorem stft_analysis_succeeds_iff_length_ge_four (data : List ℝ)
    (fs : ℝ) :
    (stft_analysis data fs).isSome = true ↔ 4 ≤ data.length :=
  stft_isSome_iff_aux data fs

/-- Counterexample to claim C4 as stated: the Magnitude Reducer does not
fail on zero-length inputs (all lengths equal 0) nor on mismatched
lengths where one channel has length 1 (numpy broadcasting), and the
repository defines no `ShapeMismatchError`. -/
theorem calculate_magnitude_no_shape_error :
    (calculate_magnitude ([] : List ℝ) [] []).isSome = true ∧
    (calculate_magnitude [(0 : ℝ)] [0, 0] [0, 0]).isSome = true :=
  ⟨rfl, rfl⟩

/-- Claim C4 (amended: the Magnitude Reducer performs no shape
validation of its own; it succeeds exactly when the three lengths are
numpy-broadcast-compatible — all equal to a common length, allowing
length-1 channels and length 0 — and otherwise raises numpy's broadcast
error, not a dedicated `ShapeMismatchError`). -/
theorem calculate_magnitude_broadcast_success_iff (x y z : List ℝ) :
    (calculate_magnitude x y z).isSome = true ↔
      ∃ L, (x.length = L ∨ x.length = 1) ∧ (y.length = L ∨ y.length = 1) ∧
        (z.length = L ∨ z.length = 1) :=
  calculate_magnitude_isSome_iff x y z

/-- Counterexample to claim C5 as stated: with `order = 0` (violating
`order ≥ 1`) and the valid reference band, the Bandpass Filter Design
succeeds instead of failing — `butter_bandpass` validates nothing
itself, scipy accepts any nonnegative order, and the repository defines
no `InvalidBandError`. -/
theorem butter_bandpass_order_zero_succeeds :
    (butter_bandpass ((0.5 : ℝ), 3) 100 0).isSome = true := by
  rw [butter_bandpass_eq_scipy, scipy_butter, if_pos (by norm_num)]
  rfl

/-- Claim C5 (amended: `butter_bandpass` performs no validation of its
own and never raises an `InvalidBandError`; it normalizes the band by
the Nyquist frequency `0.5 * fs` and delegates to scipy's Butterworth
design, which succeeds whenever the normalized band satisfies
`0 < low < high < 1`, for every order including `order = 0`). -/
theorem butter_bandpass_nyquist_normalization (cutoff : ℝ × ℝ) (fs : ℝ)
    (order : ℕ) :
    butter_bandpass cutoff fs order =
      scipy_butter order (cutoff.1 / (0.5 * fs)) (cutoff.2 / (0.5 * fs)) ∧
    (0 < cutoff.1 / (0.5 * fs) →
      cutoff.1 / (0.5 * fs) < cutoff.2 / (0.5 * fs) →
      cutoff.2 / (0.5 * fs) < 1 →
      (butter_bandpass cutoff fs order).isSome = true) := by
  refine ⟨butter_bandpass_eq_scipy cutoff fs order, ?_⟩
  intro h1 h2 h3
  rw [butter_bandpass_eq_scipy, scipy_butter, if_pos ⟨h1, h2, h3⟩]
  rfl

/-- Witness for C5's amended claim at the valid configuration
`cutoff = (1, 3)`, `fs = 100`, `order = 5`. -/
theorem butter_bandpass_nyquist_normalization_witness :
    (butter_bandpass ((1 : ℝ), 3) 100 5).isSome = true :=
  (butter_bandpass_nyquist_normalization ((1 : ℝ), 3) 100 5).2
    (by norm_num) (by norm_num) (by norm_num)

/-- Claim C6: whenever the extractor returns a frequency it is the bin
`k * fs / N` of the lowest index `k` among the maximum-magnitude non-DC
bins (every earlier non-DC bin has strictly smaller magnitude), and on
the flat-zero signal of length 100 — where all non-DC magnitudes tie at
zero — it returns bin 1's frequency `fs / 100` rather than an error. -/
theorem stft_analysis_tiebreak_lowest_and_flat_zero :
    (∀ (data : List ℝ) (fs f : ℝ), stft_analysis data fs = some f →
      ∃ k, 1 ≤ k ∧ k ≤ data.length / 2 - 1 ∧
        f = (k : ℝ) * fs / (data.length : ℝ) ∧
        (∀ j, 1 ≤ j → j ≤ data.length / 2 - 1 →
          Complex.abs ((dft (List.zipWith (· * ·) data
            (hamming data.length))).getD j 0) ≤
          Complex.abs ((dft (List.zipWith (· * ·) data
            (hamming data.length))).getD k 0)) ∧
        ∀ j, 1 ≤ j → j < k →
          Complex.abs ((dft (List.zipWith (· * ·) data
            (hamming data.length))).getD j 0) <
          Complex.abs ((dft (List.zipWith (· * ·) data
            (hamming data.length))).getD k 0)) ∧
    ∀ fs : ℝ, stft_analysis (List.replicate 100 0) fs = some (fs / 100) := by
  constructor
  · intro data fs f h
    exact (stft_some_char data fs f h).2
  · intro fs
    simpa using stft_replicate_zero 100 fs (by norm_num)

/-- Witness for C6 at the flat-zero length-100 signal with `fs = 1`:
the returned frequency `1 / 100` is bin 1, the lowest of the tied
maxima. -/
theorem stft_analysis_tiebreak_lowest_and_flat_zero_witness :
    ∃ k, 1 ≤ k ∧ k ≤ (List.replicate 100 (0 : ℝ)).length / 2 - 1 ∧
      (1 : ℝ) / 100 = (k : ℝ) * 1 / ((List.replicate 100 (0 : ℝ)).length : ℝ) ∧
      (∀ j, 1 ≤ j → j ≤ (List.replicate 100 (0 : ℝ)).length / 2 - 1 →
        Complex.abs ((dft (List.zipWith (· * ·) (List.replicate 100 (0 : ℝ))
          (hamming (List.replicate 100 (0 : ℝ)).length))).getD j 0) ≤
        Complex.abs ((dft (List.zipWith (· * ·) (List.replicate 100 (0 : ℝ))
          (hamming (List.replicate 100 (0 : ℝ)).length))).getD k 0)) ∧
      ∀ j, 1 ≤ j → j < k →
        Complex.abs ((dft (List.zipWith (· * ·) (List.replicate 100 (0 : ℝ))
          (hamming (List.replicate 100 (0 : ℝ)).length))).getD j 0) <
        Complex.abs ((dft (List.zipWith (· * ·) (List.replicate 100 (0 : ℝ))
          (hamming (List.replicate 100 (0 : ℝ)).length))).getD k 0) :=
  stft_analysis_tiebreak_lowest_and_flat_zero.1 (List.replicate 100 0) 1
    (1 / 100) (stft_analysis_tiebreak_lowest_and_flat_zero.2 1)

/-- Claim C7: the Rate Converter is the total function
`convert f = f * 60`; it sends 0 to 0 and 1 to 60, and is linear. -/
theorem calculate_heart_rate_linear :
    (∀ f : ℝ, calculate_heart_rate f = f * 60) ∧
    calculate_heart_rate 0 = 0 ∧ calculate_heart_rate 1 = 60 ∧
    ∀ a b f g : ℝ,
      calculate_heart_rate (a * f + b * g) =
        a * calculate_heart_rate f + b * calculate_heart_rate g := by
  refine ⟨fun f => rfl, by norm_num [calculate_heart_rate],
    by norm_num [calculate_heart_rate], ?_⟩
  intro a b f g
  simp only [calculate_heart_rate]
  ring

/-- Claim C8: whenever the reference pipeline produces a report, the
surfaced Heart Rate figure equals `dominant_frequency * 60 / 2`: the
Rate Converter's output (`* 60`, unhalved) is divided by 2 exactly once
at the reporting boundary, outside the converter. -/
theorem main_report_halves_once (x y z : List ℝ) (d bpm : ℝ)
    (h : main_pipeline x y z = some (d, bpm)) :
    bpm = calculate_heart_rate d / 2 ∧ bpm = d * 60 / 2 ∧
      calculate_heart_rate d = d * 60 := by
  rw [main_pipeline] at h
  cases hm : calculate_magnitude x y z with
  | none => rw [hm] at h; simp at h
  | some mag =>
    rw [hm] at h
    dsimp only at h
    cases hb : butter_bandpass (0.5, 3) 100 5 with
    | none => rw [hb] at h; simp at h
    | some ba =>
      rw [hb] at h
      dsimp only at h
      cases hs : stft_analysis (apply_filter mag ba.1 ba.2) 100 with
      | none => rw [hs] at h; simp at h
      | some dom =>
        rw [hs] at h
        dsimp only at h
        have hinj := Option.some.inj h
        have h1 : dom = d := congrArg Prod.fst hinj
        have h2 : calculate_heart_rate dom / 2 = bpm := congrArg Prod.snd hinj
        subst h1
        exact ⟨h2.symm, by rw [← h2, calculate_heart_rate], rfl⟩

/-- Witness for C8 on the all-zero length-4 input, where the pipeline
reports dominant frequency 25 and BPM 750. -/
theorem main_report_halves_once_witness :
    (750 : ℝ) = calculate_heart_rate 25 / 2 ∧ (750 : ℝ) = 25 * 60 / 2 ∧
      calculate_heart_rate 25 = 25 * 60 :=
  main_report_halves_once (List.replicate 4 0) (List.replicate 4 0)
    (List.replicate 4 0) 25 750 main_pipeline_replicate_zero

/-- Claim C9: the Bandpass Filter Apply operation returns a signal of
the same length as its input, and it is causal (a single forward pass):
the output at index `n` depends only on the input samples at indices
`0..n`, so any two inputs of the same length agreeing up to `n` produce
the same output at `n` — in contrast to a zero-phase forward-backward
pass, which would read later samples. -/
theorem apply_filter_length_and_causal (data b a : List ℝ) :
    (apply_filter data b a).length = data.length ∧
    ∀ (data' : List ℝ) (n : ℕ), data'.length = data.length →
      n < data.length → (∀ i, i ≤ n → data.getD i 0 = data'.getD i 0) →
      (apply_filter data b a).getD n 0 =
        (apply_filter data' b a).getD n 0 := by
  refine ⟨lfilter_length b a data, ?_⟩
  intro data' n hlen hn h
  rw [apply_filter, apply_filter]
  exact lfilter_getD_congr b a data data' n hlen hn h

/-- Witness for C9: the inputs `[1, 2]` and `[1, 3]` agree at index 0,
so the filtered outputs agree at index 0 (they differ at index 1 only
because the inputs do). -/
theorem apply_filter_length_and_causal_witness :
    (apply_filter [(1 : ℝ), 2] [1] [1]).getD 0 0 =
      (apply_filter [(1 : ℝ), 3] [1] [1]).getD 0 0 :=
  (apply_filter_length_and_causal [(1 : ℝ), 2] [1] [1]).2 [(1 : ℝ), 3] 0 rfl
    (by norm_num) (fun i hi => by
      interval_cases i
      rfl)

/-- Claim C10: whenever the extractor succeeds at a positive sample rate
`fs`, the returned dominant frequency is `k * fs / N` for an integer bin
index `k` with `1 ≤ k ≤ N / 2 - 1`; hence it is strictly positive and
strictly below the Nyquist frequency `fs / 2`. -/
theorem stft_analysis_freq_in_open_band (data : List ℝ) (fs f : ℝ)
    (hfs : 0 < fs) (h : stft_analysis data fs = some f) :
    ∃ k : ℕ, 1 ≤ k ∧ k ≤ data.length / 2 - 1 ∧
      f = (k : ℝ) * fs / (data.length : ℝ) ∧ 0 < f ∧ f < fs / 2 := by
  obtain ⟨h4, k, hk1, hk2, hf, -, -⟩ := stft_some_char data fs f h
  have hN0 : (0 : ℝ) < (data.length : ℝ) := by
    exact_mod_cast (by omega : 0 < data.length)
  refine ⟨k, hk1, hk2, hf, ?_, ?_⟩
  · rw [hf]
    apply div_pos _ hN0
    exact mul_pos (by exact_mod_cast (by omega : 0 < k)) hfs
  · rw [hf]
    have h2k : 2 * k < data.length := by omega
    rw [div_lt_div_iff₀ hN0 (by norm_num : (0 : ℝ) < 2)]
    have hcast : (k : ℝ) * 2 < (data.length : ℝ) := by
      exact_mod_cast (by omega : k * 2 < data.length)
    nlinarith

/-- Witness for C10 at the flat-zero length-4 signal with `fs = 1`: the
returned frequency `1 / 4` lies strictly between 0 and the Nyquist
frequency `1 / 2`. -/
theorem stft_analysis_freq_in_open_band_witness :
    ∃ k : ℕ, 1 ≤ k ∧ k ≤ (List.replicate 4 (0 : ℝ)).length / 2 - 1 ∧
      (1 : ℝ) / 4 = (k : ℝ) * 1 / ((List.replicate 4 (0 : ℝ)).length : ℝ) ∧
      0 < (1 : ℝ) / 4 ∧ (1 : ℝ) / 4 < 1 / 2 :=
  stft_analysis_freq_in_open_band (List.replicate 4 0) 1 (1 / 4)
    (by norm_num) (by simpa using stft_replicate_zero 4 1 (by norm_num))
